import Mathlib

/-!
Shallow embedding of the `transact` transaction processor.

The embedding follows the Rust sources:
* `src/model/*.rs` — identifiers, transactions, accounts;
* `src/tx_processor.rs` — the per-transaction state machine;
* `src/tx_block_store.rs` — block persistence and range-pruned lookup;
* `src/lib.rs` — the chunking pipeline.

Monetary amounts (`rust_decimal::Decimal`) are modelled as integers at a fixed
scale: a `Decimal` mantissa is a signed 96-bit integer, so a value is
representable exactly when its magnitude is at most `2 ^ 96 - 1`.  The checked
and saturating operations used by the sources are reproduced on this model.
-/

namespace Transact

set_option maxRecDepth 10000

/-- Decidable equality on `Except`, so concrete runs of the fallible
operations can be checked by `decide`. -/
instance {ε α : Type} [DecidableEq ε] [DecidableEq α] : DecidableEq (Except ε α)
  | .error e, .error e' =>
    if h : e = e' then .isTrue (by rw [h]) else .isFalse (by simp [h])
  | .error _, .ok _ => .isFalse (by simp)
  | .ok _, .error _ => .isFalse (by simp)
  | .ok a, .ok a' =>
    if h : a = a' then .isTrue (by rw [h]) else .isFalse (by simp [h])

/-- Magnitude bound of a `rust_decimal::Decimal` mantissa (`Decimal::MAX`). -/
def decimalMax : Int := 2 ^ 96 - 1

/-- Monetary amount: a `rust_decimal::Decimal` at a fixed scale, i.e. an
integer mantissa bounded in magnitude by `decimalMax`. -/
abbrev Amount := Int

/-- The value is representable as a `Decimal` (mantissa fits in 96 bits). -/
def Amount.inRange (a : Amount) : Prop := -decimalMax ≤ a ∧ a ≤ decimalMax

instance (a : Amount) : Decidable a.inRange := by
  unfold Amount.inRange; infer_instance

/-- Checked addition `Decimal::checked_add`: `None` when the exact sum does not fit. -/
def checkedAdd (a b : Amount) : Option Amount :=
  if -decimalMax ≤ a + b ∧ a + b ≤ decimalMax then some (a + b) else none

/-- Saturating subtraction `Decimal::saturating_sub`: exact difference, clamped to
`[-decimalMax, decimalMax]` on overflow. -/
def saturatingSub (a b : Amount) : Amount :=
  if a - b < -decimalMax then -decimalMax
  else if decimalMax < a - b then decimalMax
  else a - b

/-- Sign test `Decimal::is_sign_negative`: the value is strictly below zero. -/
def isSignNegative (a : Amount) : Bool := a < 0

/-- Client identifier `ClientId` — `u16` newtype (`src/model/client_id.rs`); the claims do not
exercise the 16-bit bound, so the inner integer is kept abstractly as `Nat`. -/
abbrev ClientId := Nat

/-- Transaction identifier `TxId` — `u32` newtype (`src/model/tx_id.rs`). -/
abbrev TxId := Nat

/-- Deposit transaction (`src/model/transaction.rs`). -/
structure Deposit where
  client : ClientId
  tx : TxId
  amount : Amount
deriving DecidableEq

/-- Withdrawal transaction. -/
structure Withdrawal where
  client : ClientId
  tx : TxId
  amount : Amount
deriving DecidableEq

/-- Dispute transaction (no amount). -/
structure Dispute where
  client : ClientId
  tx : TxId
deriving DecidableEq

/-- Resolve transaction (no amount). -/
structure Resolve where
  client : ClientId
  tx : TxId
deriving DecidableEq

/-- Chargeback transaction (no amount). -/
structure Chargeback where
  client : ClientId
  tx : TxId
deriving DecidableEq

/-- The five transaction variants (`src/model/transaction.rs`). -/
inductive Transaction where
  | deposit : Deposit → Transaction
  | withdrawal : Withdrawal → Transaction
  | dispute : Dispute → Transaction
  | resolve : Resolve → Transaction
  | chargeback : Chargeback → Transaction
deriving DecidableEq

/-- Accessor `Transaction::client`. -/
def Transaction.client : Transaction → ClientId
  | .deposit d => d.client
  | .withdrawal w => w.client
  | .dispute d => d.client
  | .resolve r => r.client
  | .chargeback c => c.client

/-- Accessor `Transaction::tx`. -/
def Transaction.tx : Transaction → TxId
  | .deposit d => d.tx
  | .withdrawal w => w.tx
  | .dispute d => d.tx
  | .resolve r => r.tx
  | .chargeback c => c.tx

/-- Variant test `matches!(transaction, Transaction::Deposit(_))`. -/
def Transaction.isDeposit : Transaction → Bool
  | .deposit _ => true
  | _ => false

/-- Client account state (`src/model/account.rs`).  The `disputed_txs`
`HashSet<TxId>` is modelled as a `Finset` (semantic set equality, insertion of
a member is a no-op, matching `HashSet::insert`). -/
structure Account where
  client : ClientId
  available : Amount
  held : Amount
  total : Amount
  locked : Bool
  disputed_txs : Finset TxId
deriving DecidableEq

/-- Constructor `Account::try_new`: computes `total = available + held` with
`checked_add`; `none` models the `TotalOverflow` error. -/
def Account.tryNew (client : ClientId) (available held : Amount) (locked : Bool)
    (disputed_txs : Finset TxId) : Option Account :=
  (checkedAdd available held).map fun total =>
    { client := client, available := available, held := held, total := total,
      locked := locked, disputed_txs := disputed_txs }

/-- Constructor `Account::empty`: zero amounts, unlocked, no open disputes. -/
def Account.empty (client : ClientId) : Account :=
  { client := client, available := 0, held := 0, total := 0,
    locked := false, disputed_txs := ∅ }

/-- Per-transaction business errors (`src/tx_error.rs`). -/
inductive TxError where
  | accountLocked (client : ClientId) (tx : TxId)
  | disputeClientMismatch (tx : TxId) (dispute_tx_client disputed_tx_client : ClientId)
  | disputeTxNotFound (tx : TxId)
  | disputeInsufficientAvailable (client : ClientId) (tx : TxId) (available amount : Amount)
  | disputeHeldOverflow (client : ClientId) (tx : TxId) (held amount : Amount)
  | resolveClientMismatch (tx : TxId) (resolve_tx_client disputed_tx_client : ClientId)
  | resolveInsufficientHeld (client : ClientId) (tx : TxId) (held amount : Amount)
  | resolveAvailableOverflow (client : ClientId) (tx : TxId) (available amount : Amount)
  | resolveTxNotInDispute (client : ClientId) (tx : TxId)
  | chargebackClientMismatch (tx : TxId) (chargeback_tx_client disputed_tx_client : ClientId)
  | chargebackInsufficientHeld (client : ClientId) (tx : TxId) (held amount : Amount)
  | chargebackTxNotInDispute (client : ClientId) (tx : TxId)
  | depositAmountNegative (client : ClientId) (tx : TxId) (amount : Amount)
  | depositAvailableOverflow (client : ClientId) (tx : TxId)
  | depositTotalOverflow (client : ClientId) (tx : TxId)
  | withdrawalAmountNegative (client : ClientId) (tx : TxId) (amount : Amount)
  | withdrawalInsufficientAvailable (client : ClientId) (tx : TxId) (available amount : Amount)
deriving DecidableEq

/-- Fatal processing errors (`src/error.rs`).  The `std::io::Error` /
`csv_async::Error` payloads carry no information relevant to the claims and
are dropped; in the pure model only `disputeTxNotFound` is ever produced. -/
inductive Error where
  | blockStoreDirCreate
  | blockStoreDirRead
  | blockFileCreate
  | blockFileFlush
  | blockFileRename
  | blockFileNameInvalid
  | blockTxWrite
  | disputeTxNotFound (tx : TxId)
  | transactCsvOpen
  | transactionDeserialize
  | depositAmountNotProvided (client : ClientId) (tx : TxId)
  | withdrawalAmountNotProvided (client : ClientId) (tx : TxId)
  | outputWrite
  | outputFlush
deriving DecidableEq

/-- The `.expect(..)` / `unreachable!(..)` sites in `src/tx_processor.rs`,
kept apart so unreachability of each can be stated separately. -/
inductive PanicReason where
  /-- The `unreachable!("Only deposits may be disputed ...")` arms in
  `handle_dispute` / `handle_resolve` / `handle_chargeback`. -/
  | nonDepositDisputed
  /-- An `.expect("Overflow impossible: ...")` on `Account::try_new`. -/
  | accountUpdateOverflow
deriving DecidableEq

/-- Outcome of `TxProcessor::process` for one transaction.  The Rust return
shape `Result<Result<(), TxError>, Error>` together with the `&mut Account`
flattens to: `ok` (outer Ok, inner Ok, updated account), `rejected` (outer Ok,
inner business error, account untouched), `fatal` (outer Err), or `panicked`
(an `.expect` / `unreachable!` fired). -/
inductive TxOutcome where
  | panicked (reason : PanicReason)
  | fatal (e : Error)
  | ok (account : Account)
  | rejected (account : Account) (e : TxError)
deriving DecidableEq

/-- One block file (`src/tx_block_store.rs`).  Its on-disk name is
`{txMin}_{txMax}.csv`; the name is modelled by the parsed pair
`(txMin, txMax)` (`parse_min_max_tx` inverts `format!("{tx_min}_{tx_max}.csv")`
for every file `persist_block` creates).  `rows` are the transactions obtained
by deserializing the file's records; rows may in principle hold any variant,
which is what `find_transaction` must filter. -/
structure BlockFile where
  txMin : TxId
  txMax : TxId
  rows : List Transaction
deriving DecidableEq

/-- The block store: the directory of block files, in enumeration order. -/
abbrev TxBlockStore := List BlockFile

/-- One step of `persist_block`'s `try_fold`: narrow the running
`(tx_min, tx_max)` with the written transaction's id. -/
def minMaxStep (mm : TxId × TxId) (t : Transaction) : TxId × TxId :=
  (min mm.1 t.tx, max mm.2 t.tx)

/-- Persistence `TxBlockStore::persist_block`.  `none` models the
`.expect("expected at least one transaction")` panic on an empty chunk.
On a non-empty chunk the source seeds `tx_min` / `tx_max` with the `tx` of the
chunk's *first* and *last* transactions (of any variant), writes only the
deposit rows, folding each written deposit's id into `tx_min` / `tx_max` with
`min` / `max`, and leaves the file named `{tx_min}_{tx_max}.csv` (renaming if
the seeded name differs). -/
def persistBlock (store : TxBlockStore) (transactions : List Transaction) :
    Option TxBlockStore :=
  match transactions.head?, transactions.getLast? with
  | some first, some last =>
    let deposits := transactions.filter Transaction.isDeposit
    let seeded : TxId × TxId := (first.tx, last.tx)
    let bounds := deposits.foldl minMaxStep seeded
    some (store ++ [{ txMin := bounds.1, txMax := bounds.2, rows := deposits }])
  | _, _ => none

/-- The range test of `find_transaction`: `tx_min <= tx && tx_max >= tx`. -/
def fileMatches (tx : TxId) (f : BlockFile) : Bool :=
  decide (f.txMin ≤ tx) && decide (f.txMax ≥ tx)

/-- The row filter of `find_transaction`:
`matches!(transaction, Transaction::Deposit(_)) && transaction.tx() == tx`. -/
def rowMatches (tx : TxId) (t : Transaction) : Bool :=
  t.isDeposit && decide (t.tx = tx)

/-- Lookup `TxBlockStore::find_transaction`: enumerate the block files, keep those
whose `[txMin, txMax]` range contains `tx`, stream their rows keeping deposit
rows with a matching id, and return the first hit; if no candidate produces a
hit the function returns `Err(Error::DisputeTxNotFound { tx })`. -/
def findTransaction (store : TxBlockStore) (tx : TxId) : Except Error Transaction :=
  match ((store.filter (fileMatches tx)).flatMap
      fun f => f.rows.filter (rowMatches tx)).head? with
  | some t => .ok t
  | none => .error (.disputeTxNotFound tx)

/-- Handler `TxProcessor::handle_deposit`. -/
def handleDeposit (account : Account) (deposit : Deposit) : TxOutcome :=
  let client := account.client
  let tx := deposit.tx
  let depositAmount := deposit.amount
  let available := account.available
  let availableNext := checkedAdd available depositAmount
  if isSignNegative depositAmount then
    .rejected account (.depositAmountNegative client tx depositAmount)
  else
    match availableNext with
    | none => .rejected account (.depositAvailableOverflow client tx)
    | some availableNext =>
      match Account.tryNew client availableNext account.held account.locked
          account.disputed_txs with
      | none => .rejected account (.depositTotalOverflow client tx)
      | some accountUpdated => .ok accountUpdated

/-- Handler `TxProcessor::handle_withdrawal`. -/
def handleWithdrawal (account : Account) (withdrawal : Withdrawal) : TxOutcome :=
  let client := account.client
  let tx := withdrawal.tx
  let withdrawalAmount := withdrawal.amount
  let available := account.available
  if isSignNegative withdrawalAmount then
    .rejected account (.withdrawalAmountNegative client tx withdrawalAmount)
  else if available < withdrawalAmount then
    .rejected account (.withdrawalInsufficientAvailable client tx available withdrawalAmount)
  else
    let availableNext := saturatingSub available withdrawalAmount
    match Account.tryNew client availableNext account.held account.locked
        account.disputed_txs with
    | some accountUpdated => .ok accountUpdated
    | none => .panicked .accountUpdateOverflow

/-- Handler `TxProcessor::handle_dispute`.  `tx_block_store.rs` signals a miss as
`Err(Error::DisputeTxNotFound)`, while `tx_processor.rs` consumes the lookup
as an absence (its `.ok_or(TxError::DisputeTxNotFound { .. })` call): the
miss is therefore delivered to the processor as the per-transaction business
error, and any other (I/O) error propagates through `?` as fatal. -/
def handleDispute (store : TxBlockStore) (account : Account) (dispute : Dispute) :
    TxOutcome :=
  match findTransaction store dispute.tx with
  | .error (.disputeTxNotFound _) =>
    .rejected account (.disputeTxNotFound dispute.tx)
  | .error e => .fatal e
  | .ok transaction =>
    if transaction.client ≠ dispute.client then
      .rejected account
        (.disputeClientMismatch transaction.tx dispute.client transaction.client)
    else
      match transaction with
      | .deposit deposit =>
        let tx := deposit.tx
        let amount := deposit.amount
        let client := account.client
        let available := account.available
        let held := account.held
        if available < amount then
          .rejected account (.disputeInsufficientAvailable client tx available amount)
        else
          let availableNext := saturatingSub available amount
          match checkedAdd held amount with
          | none => .rejected account (.disputeHeldOverflow client tx held amount)
          | some heldNext =>
            let disputed_txs := insert tx account.disputed_txs
            match Account.tryNew client availableNext heldNext account.locked
                disputed_txs with
            | some accountUpdated => .ok accountUpdated
            | none => .panicked .accountUpdateOverflow
      | _ => .panicked .nonDepositDisputed

/-- Handler `TxProcessor::handle_resolve`. -/
def handleResolve (store : TxBlockStore) (account : Account) (resolve : Resolve) :
    TxOutcome :=
  if resolve.tx ∈ account.disputed_txs then
    match findTransaction store resolve.tx with
    | .error (.disputeTxNotFound _) =>
      .rejected account (.disputeTxNotFound resolve.tx)
    | .error e => .fatal e
    | .ok transaction =>
      if transaction.client ≠ resolve.client then
        .rejected account
          (.resolveClientMismatch transaction.tx resolve.client transaction.client)
      else
        match transaction with
        | .deposit deposit =>
          let tx := deposit.tx
          let amount := deposit.amount
          let client := account.client
          let available := account.available
          let held := account.held
          if held < amount then
            .rejected account (.resolveInsufficientHeld client tx held amount)
          else
            let heldNext := saturatingSub held amount
            match checkedAdd available amount with
            | none =>
              .rejected account (.resolveAvailableOverflow client tx available amount)
            | some availableNext =>
              let disputed_txs := account.disputed_txs.erase resolve.tx
              match Account.tryNew client availableNext heldNext account.locked
                  disputed_txs with
              | some accountUpdated => .ok accountUpdated
              | none => .panicked .accountUpdateOverflow
        | _ => .panicked .nonDepositDisputed
  else
    .rejected account (.resolveTxNotInDispute resolve.client resolve.tx)

/-- Handler `TxProcessor::handle_chargeback`: like a resolve on the held side, but
`available` stays unchanged and the account is locked. -/
def handleChargeback (store : TxBlockStore) (account : Account)
    (chargeback : Chargeback) : TxOutcome :=
  if chargeback.tx ∈ account.disputed_txs then
    match findTransaction store chargeback.tx with
    | .error (.disputeTxNotFound _) =>
      .rejected account (.disputeTxNotFound chargeback.tx)
    | .error e => .fatal e
    | .ok transaction =>
      if transaction.client ≠ chargeback.client then
        .rejected account
          (.chargebackClientMismatch transaction.tx chargeback.client transaction.client)
      else
        match transaction with
        | .deposit deposit =>
          let tx := deposit.tx
          let amount := deposit.amount
          let client := account.client
          let available := account.available
          let held := account.held
          if held < amount then
            .rejected account (.chargebackInsufficientHeld client tx held amount)
          else
            let heldNext := saturatingSub held amount
            let disputed_txs := account.disputed_txs.erase chargeback.tx
            match Account.tryNew client available heldNext true disputed_txs with
            | some accountUpdated => .ok accountUpdated
            | none => .panicked .accountUpdateOverflow
        | _ => .panicked .nonDepositDisputed
  else
    .rejected account (.chargebackTxNotInDispute chargeback.client chargeback.tx)

/-- Dispatcher `TxProcessor::process`: reject locked accounts up front, otherwise
dispatch on the variant. -/
def process (store : TxBlockStore) (account : Account) (transaction : Transaction) :
    TxOutcome :=
  if account.locked then
    .rejected account (.accountLocked account.client transaction.tx)
  else
    match transaction with
    | .deposit deposit => handleDeposit account deposit
    | .withdrawal withdrawal => handleWithdrawal account withdrawal
    | .dispute dispute => handleDispute store account dispute
    | .resolve resolve => handleResolve store account resolve
    | .chargeback chargeback => handleChargeback store account chargeback

/-- The account retained by the pipeline's fold after one `process` call:
the updated account on success, the untouched account on a business error
(the pipeline logs and continues), the previous account otherwise (the
pipeline aborts on fatal errors, so no further state exists). -/
def applyOutcome (account : Account) : TxOutcome → Account
  | .ok accountNext => accountNext
  | .rejected accountNext _ => accountNext
  | _ => account

/-- Folding a sequence of transactions through `process` against a fixed
block store, as the pipeline's `try_fold` does per account. -/
def processFold (store : TxBlockStore) (account : Account)
    (transactions : List Transaction) : Account :=
  transactions.foldl (fun a t => applyOutcome a (process store a t)) account

/-- Block size `TX_BLOCK_SIZE` (`src/lib.rs`). -/
def TX_BLOCK_SIZE : Nat := 10000

/-- The pipeline's `try_chunks(TX_BLOCK_SIZE)`: groups the stream into
consecutive chunks of `TX_BLOCK_SIZE` transactions, the last chunk possibly
shorter; an exhausted stream yields no further chunk, so no chunk is empty. -/
def chunksOf (transactions : List Transaction) : List (List Transaction) :=
  if _h : transactions = [] then []
  else
    transactions.take TX_BLOCK_SIZE :: chunksOf (transactions.drop TX_BLOCK_SIZE)
termination_by transactions.length
decreasing_by
  simp only [List.length_drop]
  have hlen : transactions.length ≠ 0 := fun hc => _h (List.length_eq_zero.mp hc)
  simp only [TX_BLOCK_SIZE]
  omega

/-! ## Helper lemmas -/

/-- A successful `checked_add` returns the exact sum, which is in range. -/
theorem checkedAdd_some {a b c : Amount} (h : checkedAdd a b = some c) :
    c = a + b ∧ -decimalMax ≤ a + b ∧ a + b ≤ decimalMax := by
  unfold checkedAdd at h
  split at h
  · rename_i hr
    exact ⟨(Option.some.injEq _ _ ▸ h).symm, hr.1, hr.2⟩
  · exact absurd h (by simp)

/-- Lemma: `checked_add` succeeds exactly on in-range sums. -/
theorem checkedAdd_eq_some (a b : Amount) (h1 : -decimalMax ≤ a + b)
    (h2 : a + b ≤ decimalMax) : checkedAdd a b = some (a + b) := by
  unfold checkedAdd
  rw [if_pos ⟨h1, h2⟩]

/-- Lemma: `saturating_sub` is exact subtraction when the difference is in range. -/
theorem saturatingSub_of_inRange {a b : Amount} (h1 : -decimalMax ≤ a - b)
    (h2 : a - b ≤ decimalMax) : saturatingSub a b = a - b := by
  unfold saturatingSub
  rw [if_neg (not_lt.mpr h1), if_neg (not_lt.mpr h2)]

/-- If every element of a non-empty list is `a`, its head is `a`. -/
theorem head?_eq_of_all_eq {α : Type} {l : List α} {a : α} (hne : l ≠ [])
    (hall : ∀ x ∈ l, x = a) : l.head? = some a := by
  cases l with
  | nil => exact absurd rfl hne
  | cons x xs => simpa using hall x (by simp)

/-- The running minimum/maximum of `persist_block`'s fold bounds the seeds and
every folded transaction id. -/
theorem foldl_minMaxStep_le (l : List Transaction) (a b : TxId) :
    (l.foldl minMaxStep (a, b)).1 ≤ a ∧ b ≤ (l.foldl minMaxStep (a, b)).2 ∧
      ∀ t ∈ l, (l.foldl minMaxStep (a, b)).1 ≤ t.tx ∧
        t.tx ≤ (l.foldl minMaxStep (a, b)).2 := by
  induction l generalizing a b with
  | nil => simp
  | cons t l ih =>
    simp only [List.foldl_cons, minMaxStep]
    obtain ⟨ih1, ih2, ih3⟩ := ih (min a t.tx) (max b t.tx)
    refine ⟨le_trans ih1 (min_le_left _ _), le_trans (le_max_left _ _) ih2, ?_⟩
    intro u hu
    rcases List.mem_cons.mp hu with rfl | hu
    · exact ⟨le_trans ih1 (min_le_right _ _), le_trans (le_max_right _ _) ih2⟩
    · exact ih3 u hu

/-- The result of `persist_block`'s fold is attained: the final minimum is a
seed or some folded transaction id, and likewise the final maximum. -/
theorem foldl_minMaxStep_mem (l : List Transaction) (a b : TxId) :
    ((l.foldl minMaxStep (a, b)).1 = a ∨
      ∃ t ∈ l, (l.foldl minMaxStep (a, b)).1 = t.tx) ∧
    ((l.foldl minMaxStep (a, b)).2 = b ∨
      ∃ t ∈ l, (l.foldl minMaxStep (a, b)).2 = t.tx) := by
  induction l generalizing a b with
  | nil => simp
  | cons t l ih =>
    simp only [List.foldl_cons, minMaxStep]
    obtain ⟨ih1, ih2⟩ := ih (min a t.tx) (max b t.tx)
    constructor
    · rcases ih1 with h | ⟨u, hu, h⟩
      · rcases min_cases a t.tx with ⟨hm, _⟩ | ⟨hm, _⟩
        · exact Or.inl (h.trans hm)
        · exact Or.inr ⟨t, by simp, h.trans hm⟩
      · exact Or.inr ⟨u, by simp [hu], h⟩
    · rcases ih2 with h | ⟨u, hu, h⟩
      · rcases max_cases b t.tx with ⟨hm, _⟩ | ⟨hm, _⟩
        · exact Or.inl (h.trans hm)
        · exact Or.inr ⟨t, by simp, h.trans hm⟩
      · exact Or.inr ⟨u, by simp [hu], h⟩

/-- Lemma: `persist_block` on a non-empty chunk: the store gains exactly one block
file holding the chunk's deposits, with the folded bounds as its name. -/
theorem persistBlock_eq {store : TxBlockStore} {ts : List Transaction}
    {first last : Transaction} (h1 : ts.head? = some first)
    (h2 : ts.getLast? = some last) :
    persistBlock store ts =
      some (store ++
        [{ txMin := ((ts.filter Transaction.isDeposit).foldl minMaxStep
              (first.tx, last.tx)).1,
           txMax := ((ts.filter Transaction.isDeposit).foldl minMaxStep
              (first.tx, last.tx)).2,
           rows := ts.filter Transaction.isDeposit }]) := by
  unfold persistBlock
  rw [h1, h2]

/-- Every transaction `find_transaction` can return is a deposit row with the
looked-up id, taken from some block file of the store. -/
theorem findTransaction_ok {store : TxBlockStore} {tx : TxId} {t : Transaction}
    (h : findTransaction store tx = .ok t) :
    t.isDeposit = true ∧ t.tx = tx ∧ ∃ f ∈ store, t ∈ f.rows := by
  unfold findTransaction at h
  split at h
  · rename_i u hu
    have ht : u = t := by simpa using h
    subst ht
    have hmem' : u ∈ (store.filter (fileMatches tx)).flatMap
        fun f => f.rows.filter (rowMatches tx) :=
      List.mem_of_mem_head? (Option.mem_def.mpr hu)
    obtain ⟨f, hf, hrow⟩ := List.mem_flatMap.mp hmem'
    have hrm := (List.mem_filter.mp hrow).2
    have hfm := List.mem_filter.mp hf
    unfold rowMatches at hrm
    simp only [Bool.and_eq_true, decide_eq_true_eq] at hrm
    exact ⟨hrm.1, hrm.2, f, hfm.1, (List.mem_filter.mp hrow).1⟩
  · exact absurd h (by simp)

/-- Lemma: `find_transaction` either finds a row or reports `DisputeTxNotFound`. -/
theorem findTransaction_cases (store : TxBlockStore) (tx : TxId) :
    (∃ t, findTransaction store tx = .ok t) ∨
      findTransaction store tx = .error (.disputeTxNotFound tx) := by
  unfold findTransaction
  split
  · exact Or.inl ⟨_, rfl⟩
  · exact Or.inr rfl

/-! ## Claims -/

/-- C1 (counterexample): the claim says a second dispute of an
already-disputed tx does not move funds.  On the code it does: with tx 1
already in `disputed_txs` and deposit 1 (amount 3) in the block store, a
second dispute moves `available` from 5 to 2 and `held` from 0 to 3 —
`handle_dispute` never checks membership, only the set re-insert is a no-op. -/
theorem dispute_second_time_moves_funds_counterexample :
    (1 : TxId) ∈ (({1} : Finset TxId)) ∧
    process [{ txMin := 1, txMax := 1, rows := [.deposit ⟨1, 1, 3⟩] }]
        { client := 1, available := 5, held := 0, total := 5, locked := false,
          disputed_txs := {1} }
        (.dispute ⟨1, 1⟩) =
      .ok { client := 1, available := 2, held := 3, total := 5, locked := false,
            disputed_txs := {1} } ∧
    (2 : Amount) ≠ 5 := by
  decide

/-- C1 (amended): a Dispute whose tx is already in `disputed_txs` is processed
exactly like a first dispute — when the lookup finds the deposit, the client
matches, the amount is at most `available` and the held/total additions fit,
funds move again (`available` loses the amount via `saturating_sub`, `held`
gains it) and only the set re-insertion is a no-op, leaving `disputed_txs`
unchanged. -/
theorem dispute_second_time_moves_funds (store : TxBlockStore) (account : Account)
    (d : Dispute) (dep : Deposit) (heldNext totalNext : Amount)
    (hl : account.locked = false)
    (hmem : d.tx ∈ account.disputed_txs)
    (hfind : findTransaction store d.tx = .ok (.deposit dep))
    (hclient : dep.client = d.client)
    (hle : dep.amount ≤ account.available)
    (hheld : checkedAdd account.held dep.amount = some heldNext)
    (htot : checkedAdd (saturatingSub account.available dep.amount) heldNext =
      some totalNext) :
    process store account (.dispute d) =
      .ok { client := account.client,
            available := saturatingSub account.available dep.amount,
            held := heldNext, total := totalNext, locked := account.locked,
            disputed_txs := account.disputed_txs } := by
  have htx : dep.tx = d.tx := by
    have := (findTransaction_ok hfind).2.1
    simpa [Transaction.tx] using this
  have hins : insert dep.tx account.disputed_txs = account.disputed_txs := by
    rw [htx]
    exact Finset.insert_eq_self.mpr hmem
  unfold process
  rw [hl]
  simp only [Bool.false_eq_true, if_false]
  unfold handleDispute
  rw [hfind]
  simp only [Transaction.client, Transaction.tx, hclient, ne_eq,
    not_true_eq_false, if_false]
  rw [if_neg (not_lt.mpr hle), hheld]
  simp only [hins]
  unfold Account.tryNew
  rw [htot]
  simp [hl]

/-- C1 (witness for the amended theorem). -/
theorem dispute_second_time_moves_funds_witness :
    process [{ txMin := 1, txMax := 1, rows := [.deposit ⟨1, 1, 3⟩] }]
        { client := 1, available := 5, held := 0, total := 5, locked := false,
          disputed_txs := {1} }
        (.dispute ⟨1, 1⟩) =
      .ok { client := 1, available := 2, held := 3, total := 5, locked := false,
            disputed_txs := {1} } := by
  have h := dispute_second_time_moves_funds
    [{ txMin := 1, txMax := 1, rows := [.deposit ⟨1, 1, 3⟩] }]
    { client := 1, available := 5, held := 0, total := 5, locked := false,
      disputed_txs := {1} }
    ⟨1, 1⟩ ⟨1, 1, 3⟩ 3 5 rfl (by decide) (by decide) rfl (by decide)
    (by decide) (by decide)
  have hs : saturatingSub 5 3 = (2 : Amount) := by decide
  rw [hs] at h
  exact h

/-- C2: a Dispute whose tx id is not found in the block store leaves the
account unchanged and is not fatal: the processor reports the per-transaction
business error `DisputeTxNotFound` (outer level `Ok`), so the stream
continues. -/
theorem dispute_unknown_tx_nonfatal (store : TxBlockStore) (account : Account)
    (d : Dispute) (hl : account.locked = false)
    (hnf : ∀ t, findTransaction store d.tx ≠ .ok t) :
    process store account (.dispute d) =
      .rejected account (.disputeTxNotFound d.tx) := by
  have herr : findTransaction store d.tx = .error (.disputeTxNotFound d.tx) := by
    rcases findTransaction_cases store d.tx with ⟨t, ht⟩ | h
    · exact absurd ht (hnf t)
    · exact h
  unfold process
  rw [hl]
  simp only [Bool.false_eq_true, if_false]
  unfold handleDispute
  rw [herr]

/-- C2 (witness). -/
theorem dispute_unknown_tx_nonfatal_witness :
    process [] (Account.empty 1) (.dispute ⟨1, 9⟩) =
      .rejected (Account.empty 1) (.disputeTxNotFound 9) :=
  dispute_unknown_tx_nonfatal [] (Account.empty 1) ⟨1, 9⟩ rfl
    (fun t h => by simp [findTransaction] at h)

/-- C3 (code bug): the claimed invariant `held ≥ 0` fails on a reachable
state.  The pipeline persists each chunk before processing it, and
`persist_block` keeps every deposit — including a negative-amount deposit the
processor then rejects.  Disputing that rejected deposit moves its negative
amount: from the input stream `deposit(client 1, tx 1, −3); dispute(1, 1)`
the account reaches `available = 3, held = −3`, so `held < 0` (and funds were
conjured: `available` grew without any accepted deposit). -/
theorem reachable_account_negative_held :
    persistBlock [] [.deposit ⟨1, 1, -3⟩, .dispute ⟨1, 1⟩] =
      some [{ txMin := 1, txMax := 1, rows := [.deposit ⟨1, 1, -3⟩] }] ∧
    processFold [{ txMin := 1, txMax := 1, rows := [.deposit ⟨1, 1, -3⟩] }]
        (Account.empty 1) [.deposit ⟨1, 1, -3⟩, .dispute ⟨1, 1⟩] =
      { client := 1, available := 3, held := -3, total := 0, locked := false,
        disputed_txs := {1} } ∧
    ((-3 : Amount) < 0) := by
  decide

/-- C4: a locked account rejects every transaction with `AccountLocked`
before any variant-specific logic, leaving the account untouched; hence a
locked account is never mutated by any later sequence of transactions. -/
theorem locked_account_never_mutated (store : TxBlockStore) (account : Account)
    (t : Transaction) (ts : List Transaction) (h : account.locked = true) :
    process store account t =
      .rejected account (.accountLocked account.client t.tx) ∧
    processFold store account ts = account := by
  have hp : ∀ u : Transaction, process store account u =
      .rejected account (.accountLocked account.client u.tx) := by
    intro u
    unfold process
    rw [h]
    simp
  refine ⟨hp t, ?_⟩
  induction ts with
  | nil => rfl
  | cons u us ih =>
    unfold processFold at ih ⊢
    simp only [List.foldl_cons, hp u, applyOutcome]
    exact ih

/-- C4 (witness). -/
theorem locked_account_never_mutated_witness :
    process []
        { client := 1, available := 4, held := 0, total := 4, locked := true,
          disputed_txs := ∅ }
        (.deposit ⟨1, 2, 5⟩) =
      .rejected
        { client := 1, available := 4, held := 0, total := 4, locked := true,
          disputed_txs := ∅ } (.accountLocked 1 2) ∧
    processFold []
        { client := 1, available := 4, held := 0, total := 4, locked := true,
          disputed_txs := ∅ }
        [.deposit ⟨1, 2, 5⟩, .withdrawal ⟨1, 3, 1⟩] =
      { client := 1, available := 4, held := 0, total := 4, locked := true,
        disputed_txs := ∅ } :=
  locked_account_never_mutated []
    { client := 1, available := 4, held := 0, total := 4, locked := true,
      disputed_txs := ∅ }
    (.deposit ⟨1, 2, 5⟩) [.deposit ⟨1, 2, 5⟩, .withdrawal ⟨1, 3, 1⟩] rfl

/-- C7: deposits on an unlocked account: a negative amount is rejected with
`DepositAmountNegative`; an overflowing `available + amount` with
`DepositAvailableOverflow`; a fitting `available + amount` whose sum with
`held` overflows with `DepositTotalOverflow`; each failure leaves the account
unchanged, and on success `available` gains the amount, `total` is recomputed,
and `held`, `locked`, `disputed_txs` are unchanged. -/
theorem deposit_semantics (store : TxBlockStore) (account : Account) (d : Deposit)
    (hl : account.locked = false) :
    (d.amount < 0 →
      process store account (.deposit d) =
        .rejected account (.depositAmountNegative account.client d.tx d.amount)) ∧
    (0 ≤ d.amount → checkedAdd account.available d.amount = none →
      process store account (.deposit d) =
        .rejected account (.depositAvailableOverflow account.client d.tx)) ∧
    (∀ availableNext, 0 ≤ d.amount →
      checkedAdd account.available d.amount = some availableNext →
      checkedAdd availableNext account.held = none →
      process store account (.deposit d) =
        .rejected account (.depositTotalOverflow account.client d.tx)) ∧
    (∀ availableNext totalNext, 0 ≤ d.amount →
      checkedAdd account.available d.amount = some availableNext →
      checkedAdd availableNext account.held = some totalNext →
      process store account (.deposit d) =
        .ok { client := account.client,
              available := account.available + d.amount,
              held := account.held,
              total := account.available + d.amount + account.held,
              locked := account.locked,
              disputed_txs := account.disputed_txs }) := by
  have hpd : process store account (.deposit d) = handleDeposit account d := by
    unfold process
    rw [hl]
    simp
  refine ⟨?_, ?_, ?_, ?_⟩
  · intro h
    rw [hpd]
    simp [handleDeposit, isSignNegative, h]
  · intro h hn
    rw [hpd]
    simp [handleDeposit, isSignNegative, not_lt.mpr h, hn]
  · intro availableNext h hs hn
    rw [hpd]
    simp [handleDeposit, isSignNegative, not_lt.mpr h, hs, Account.tryNew, hn]
  · intro availableNext totalNext h hs ht
    obtain ⟨rfl, -, -⟩ := checkedAdd_some hs
    obtain ⟨rfl, -, -⟩ := checkedAdd_some ht
    rw [hpd]
    simp [handleDeposit, isSignNegative, not_lt.mpr h, hs, Account.tryNew, ht]

/-- C7 (witness): the four deposit cases at concrete inputs. -/
theorem deposit_semantics_witness :
    process [] (Account.empty 1) (.deposit ⟨1, 2, -1⟩) =
      .rejected (Account.empty 1) (.depositAmountNegative 1 2 (-1)) ∧
    process []
        { client := 1, available := decimalMax, held := 0, total := decimalMax,
          locked := false, disputed_txs := ∅ }
        (.deposit ⟨1, 2, 1⟩) =
      .rejected
        { client := 1, available := decimalMax, held := 0, total := decimalMax,
          locked := false, disputed_txs := ∅ }
        (.depositAvailableOverflow 1 2) ∧
    process []
        { client := 1, available := 0, held := decimalMax, total := decimalMax,
          locked := false, disputed_txs := ∅ }
        (.deposit ⟨1, 2, 1⟩) =
      .rejected
        { client := 1, available := 0, held := decimalMax, total := decimalMax,
          locked := false, disputed_txs := ∅ }
        (.depositTotalOverflow 1 2) ∧
    process [] (Account.empty 1) (.deposit ⟨1, 2, 5⟩) =
      .ok { client := 1, available := 0 + 5, held := 0, total := 0 + 5 + 0,
            locked := false, disputed_txs := ∅ } :=
  ⟨(deposit_semantics [] (Account.empty 1) ⟨1, 2, -1⟩ rfl).1 (by decide),
   (deposit_semantics []
      { client := 1, available := decimalMax, held := 0, total := decimalMax,
        locked := false, disputed_txs := ∅ } ⟨1, 2, 1⟩ rfl).2.1
     (by decide) (by decide),
   (deposit_semantics []
      { client := 1, available := 0, held := decimalMax, total := decimalMax,
        locked := false, disputed_txs := ∅ } ⟨1, 2, 1⟩ rfl).2.2.1 1
     (by decide) (by decide) (by decide),
   (deposit_semantics [] (Account.empty 1) ⟨1, 2, 5⟩ rfl).2.2.2 5 5
     (by decide) (by decide) (by decide)⟩

/-- C8: withdrawals of a non-negative amount on an unlocked account: if the
amount exceeds `available`, the refusal `WithdrawalInsufficientAvailable`
leaves the account unchanged (a non-fatal, inner-level outcome); otherwise
the withdrawal succeeds, `available` loses the amount and `held`, `locked`,
`disputed_txs` are unchanged; withdrawing exactly `available` leaves
`available = 0`. -/
theorem withdrawal_semantics (store : TxBlockStore) (account : Account)
    (w : Withdrawal) (hl : account.locked = false) (hnn : 0 ≤ w.amount)
    (hav : Amount.inRange account.available)
    (hheld : Amount.inRange account.held)
    (htot : account.available + account.held ≤ decimalMax) :
    (account.available < w.amount →
      process store account (.withdrawal w) =
        .rejected account
          (.withdrawalInsufficientAvailable account.client w.tx
            account.available w.amount)) ∧
    (w.amount ≤ account.available →
      process store account (.withdrawal w) =
        .ok { client := account.client,
              available := account.available - w.amount,
              held := account.held,
              total := account.available - w.amount + account.held,
              locked := account.locked,
              disputed_txs := account.disputed_txs }) ∧
    (w.amount = account.available →
      process store account (.withdrawal w) =
        .ok { client := account.client, available := 0, held := account.held,
              total := 0 + account.held, locked := account.locked,
              disputed_txs := account.disputed_txs }) := by
  have hpw : process store account (.withdrawal w) = handleWithdrawal account w := by
    unfold process
    rw [hl]
    simp
  have hmax0 : (0 : Int) ≤ decimalMax := by decide
  have hsucc : ∀ hle : w.amount ≤ account.available,
      process store account (.withdrawal w) =
        .ok { client := account.client,
              available := account.available - w.amount,
              held := account.held,
              total := account.available - w.amount + account.held,
              locked := account.locked,
              disputed_txs := account.disputed_txs } := by
    intro hle
    have hd0 : 0 ≤ account.available - w.amount := sub_nonneg.mpr hle
    have hdu : account.available - w.amount ≤ decimalMax :=
      le_trans (sub_le_self account.available hnn) hav.2
    have hsub := saturatingSub_of_inRange (le_trans (neg_nonpos.mpr hmax0) hd0) hdu
    have hadd : checkedAdd (account.available - w.amount) account.held =
        some (account.available - w.amount + account.held) := by
      refine checkedAdd_eq_some _ _ ?_ ?_
      · have := hheld.1
        linarith
      · have : account.available - w.amount + account.held ≤
            account.available + account.held := by linarith
        linarith
    rw [hpw]
    simp [handleWithdrawal, isSignNegative, not_lt.mpr hnn, not_lt.mpr hle,
      hsub, Account.tryNew, hadd]
  refine ⟨?_, hsucc, ?_⟩
  · intro h
    rw [hpw]
    simp [handleWithdrawal, isSignNegative, not_lt.mpr hnn, h]
  · intro h
    have := hsucc (le_of_eq h)
    rw [h, sub_self] at this
    exact this

/-- C8 (witness): an over-large withdrawal is refused; an exact withdrawal
zeroes `available`. -/
theorem withdrawal_semantics_witness :
    process []
        { client := 1, available := 1, held := 0, total := 1, locked := false,
          disputed_txs := ∅ }
        (.withdrawal ⟨1, 2, 2⟩) =
      .rejected
        { client := 1, available := 1, held := 0, total := 1, locked := false,
          disputed_txs := ∅ }
        (.withdrawalInsufficientAvailable 1 2 1 2) ∧
    process []
        { client := 1, available := 1, held := 0, total := 1, locked := false,
          disputed_txs := ∅ }
        (.withdrawal ⟨1, 3, 1⟩) =
      .ok { client := 1, available := 0, held := 0, total := 0 + 0,
            locked := false, disputed_txs := ∅ } :=
  ⟨(withdrawal_semantics []
      { client := 1, available := 1, held := 0, total := 1, locked := false,
        disputed_txs := ∅ } ⟨1, 2, 2⟩ rfl (by decide) (by decide) (by decide)
      (by decide)).1 (by decide),
   (withdrawal_semantics []
      { client := 1, available := 1, held := 0, total := 1, locked := false,
        disputed_txs := ∅ } ⟨1, 3, 1⟩ rfl (by decide) (by decide) (by decide)
      (by decide)).2.2 (by decide)⟩

/-- C5 (counterexample): the claim says the block-file name bounds are the
min/max over the deposits actually written.  For the chunk
`[dispute(tx 1), deposit(tx 5)]` the written file carries `txMin = 1` — the
dispute's id — although the only deposit written has id 5: the source seeds
the fold with the chunk's first/last transaction of any variant. -/
theorem block_file_name_counterexample :
    persistBlock [] [.dispute ⟨1, 1⟩, .deposit ⟨1, 5, 2⟩] =
      some [{ txMin := 1, txMax := 5, rows := [.deposit ⟨1, 5, 2⟩] }] ∧
    (1 : TxId) ∉ ([Transaction.deposit ⟨1, 5, 2⟩].map Transaction.tx) := by
  decide

/-- C5 (amended): the file is named `{min}_{max}.csv` where `min` is the
least of the chunk's FIRST transaction id and the ids of the deposits
actually written, and `max` is the greatest of the chunk's LAST transaction
id and those deposit ids (so the bounds are over the deposits only when the
seeds do not escape them); the rows written are exactly the chunk's
deposits. -/
theorem block_file_name_bounds (store : TxBlockStore) (ts : List Transaction)
    (f : BlockFile) (first last : Transaction)
    (h1 : ts.head? = some first) (h2 : ts.getLast? = some last)
    (hp : persistBlock store ts = some (store ++ [f])) :
    f.rows = ts.filter Transaction.isDeposit ∧
    (f.txMin = first.tx ∨ ∃ t ∈ f.rows, f.txMin = t.tx) ∧
    f.txMin ≤ first.tx ∧ (∀ t ∈ f.rows, f.txMin ≤ t.tx) ∧
    (f.txMax = last.tx ∨ ∃ t ∈ f.rows, f.txMax = t.tx) ∧
    last.tx ≤ f.txMax ∧ (∀ t ∈ f.rows, t.tx ≤ f.txMax) := by
  rw [persistBlock_eq h1 h2] at hp
  have hf := List.append_cancel_left (Option.some.inj hp)
  have hf' : f =
      { txMin := ((ts.filter Transaction.isDeposit).foldl minMaxStep
          (first.tx, last.tx)).1,
        txMax := ((ts.filter Transaction.isDeposit).foldl minMaxStep
          (first.tx, last.tx)).2,
        rows := ts.filter Transaction.isDeposit } := by
    simpa using hf.symm
  subst hf'
  obtain ⟨hle1, hle2, hle3⟩ :=
    foldl_minMaxStep_le (ts.filter Transaction.isDeposit) first.tx last.tx
  obtain ⟨hm1, hm2⟩ :=
    foldl_minMaxStep_mem (ts.filter Transaction.isDeposit) first.tx last.tx
  exact ⟨rfl, hm1, hle1, fun t ht => (hle3 t ht).1, hm2, hle2,
    fun t ht => (hle3 t ht).2⟩

/-- C5 (witness for the amended theorem). -/
theorem block_file_name_bounds_witness :
    (⟨1, 5, [Transaction.deposit ⟨1, 5, 2⟩]⟩ : BlockFile).rows =
      ([.dispute ⟨1, 1⟩, .deposit ⟨1, 5, 2⟩].filter Transaction.isDeposit) ∧
    ((⟨1, 5, [Transaction.deposit ⟨1, 5, 2⟩]⟩ : BlockFile).txMin =
        (Transaction.dispute ⟨1, 1⟩).tx ∨
      ∃ t ∈ (⟨1, 5, [Transaction.deposit ⟨1, 5, 2⟩]⟩ : BlockFile).rows,
        (⟨1, 5, [Transaction.deposit ⟨1, 5, 2⟩]⟩ : BlockFile).txMin = t.tx) :=
  have h := block_file_name_bounds []
    [.dispute ⟨1, 1⟩, .deposit ⟨1, 5, 2⟩]
    ⟨1, 5, [Transaction.deposit ⟨1, 5, 2⟩]⟩
    (.dispute ⟨1, 1⟩) (.deposit ⟨1, 5, 2⟩) rfl (by decide) (by decide)
  ⟨h.1, h.2.1⟩

/-- C6: after `persist_block` succeeds on a chunk, looking up any deposit of
that chunk by id returns exactly that deposit (same client, same amount),
provided no other deposit row in the resulting store carries the same id
(the input contract: transaction ids are globally unique). -/
theorem persist_find_roundtrip (store : TxBlockStore) (ts : List Transaction)
    (store' : TxBlockStore) (dep : Deposit)
    (hp : persistBlock store ts = some store')
    (hmem : Transaction.deposit dep ∈ ts)
    (huniq : ∀ f ∈ store', ∀ row ∈ f.rows, rowMatches dep.tx row = true →
      row = Transaction.deposit dep) :
    findTransaction store' dep.tx = .ok (.deposit dep) := by
  have hne : ts ≠ [] := List.ne_nil_of_mem hmem
  have h1 : ts.head? = some (ts.head hne) := List.head?_eq_head hne
  have h2 : ts.getLast? = some (ts.getLast hne) := List.getLast?_eq_getLast ts hne
  rw [persistBlock_eq h1 h2] at hp
  obtain rfl := Option.some.inj hp
  set deposits := ts.filter Transaction.isDeposit with hdeps
  set B : BlockFile :=
    { txMin := (deposits.foldl minMaxStep ((ts.head hne).tx, (ts.getLast hne).tx)).1,
      txMax := (deposits.foldl minMaxStep ((ts.head hne).tx, (ts.getLast hne).tx)).2,
      rows := deposits } with hB
  have hrowmem : Transaction.deposit dep ∈ B.rows :=
    List.mem_filter.mpr ⟨hmem, by simp [Transaction.isDeposit]⟩
  have hbounds :=
    (foldl_minMaxStep_le deposits ((ts.head hne).tx) ((ts.getLast hne).tx)).2.2
      (Transaction.deposit dep) hrowmem
  have hfm : fileMatches dep.tx B = true := by
    simp only [fileMatches, Bool.and_eq_true, decide_eq_true_eq, ge_iff_le]
    exact ⟨hbounds.1, hbounds.2⟩
  have hBfil : B ∈ (store ++ [B]).filter (fileMatches dep.tx) :=
    List.mem_filter.mpr ⟨by simp, hfm⟩
  have hLmem : Transaction.deposit dep ∈
      ((store ++ [B]).filter (fileMatches dep.tx)).flatMap
        fun f => f.rows.filter (rowMatches dep.tx) :=
    List.mem_flatMap.mpr ⟨B, hBfil,
      List.mem_filter.mpr ⟨hrowmem,
        by simp [rowMatches, Transaction.isDeposit, Transaction.tx]⟩⟩
  have hall : ∀ x ∈ ((store ++ [B]).filter (fileMatches dep.tx)).flatMap
      fun f => f.rows.filter (rowMatches dep.tx), x = Transaction.deposit dep := by
    intro x hx
    obtain ⟨f, hf, hxr⟩ := List.mem_flatMap.mp hx
    have hfmem : f ∈ store ++ [B] := (List.mem_filter.mp hf).1
    have hxrow := List.mem_filter.mp hxr
    exact huniq f hfmem x hxrow.1 hxrow.2
  have hhead := head?_eq_of_all_eq (List.ne_nil_of_mem hLmem) hall
  unfold findTransaction
  rw [hhead]

/-- C6 (witness). -/
theorem persist_find_roundtrip_witness :
    findTransaction
        [{ txMin := 7, txMax := 7, rows := [Transaction.deposit ⟨1, 7, 5⟩] }] 7 =
      .ok (.deposit ⟨1, 7, 5⟩) :=
  persist_find_roundtrip [] [.deposit ⟨1, 7, 5⟩]
    [{ txMin := 7, txMax := 7, rows := [Transaction.deposit ⟨1, 7, 5⟩] }]
    ⟨1, 7, 5⟩ (by decide) (by decide) (by decide)

/-- C9: `find_transaction` only ever returns deposit rows (its row filter
requires the deposit variant even when a block file holds a non-deposit row
with the looked-up id), and consequently the `unreachable!` arms of
`handle_dispute`, `handle_resolve` and `handle_chargeback` — which fire when
the found transaction is not a deposit — are never taken. -/
theorem find_transaction_only_deposits :
    (∀ (store : TxBlockStore) (tx : TxId) (t : Transaction),
      findTransaction store tx = .ok t → t.isDeposit = true) ∧
    (∀ (store : TxBlockStore) (account : Account) (d : Dispute),
      handleDispute store account d ≠ .panicked .nonDepositDisputed) ∧
    (∀ (store : TxBlockStore) (account : Account) (r : Resolve),
      handleResolve store account r ≠ .panicked .nonDepositDisputed) ∧
    (∀ (store : TxBlockStore) (account : Account) (c : Chargeback),
      handleChargeback store account c ≠ .panicked .nonDepositDisputed) := by
  have hok : ∀ (store : TxBlockStore) (tx : TxId) (t : Transaction),
      findTransaction store tx = .ok t → t.isDeposit = true :=
    fun _ _ _ h => (findTransaction_ok h).1
  refine ⟨hok, ?_, ?_, ?_⟩
  · intro store account d
    unfold handleDispute
    split
    · simp
    · simp
    · rename_i t heq
      have hd := hok store d.tx t heq
      cases t with
      | deposit dp =>
        dsimp only
        split
        · simp
        · split
          · simp
          · split
            · simp
            · split <;> simp
      | withdrawal w => simp [Transaction.isDeposit] at hd
      | dispute d2 => simp [Transaction.isDeposit] at hd
      | resolve r2 => simp [Transaction.isDeposit] at hd
      | chargeback c2 => simp [Transaction.isDeposit] at hd
  · intro store account r
    unfold handleResolve
    split
    · split
      · simp
      · simp
      · rename_i t heq
        have hd := hok store r.tx t heq
        cases t with
        | deposit dp =>
          dsimp only
          split
          · simp
          · split
            · simp
            · split
              · simp
              · split <;> simp
        | withdrawal w => simp [Transaction.isDeposit] at hd
        | dispute d2 => simp [Transaction.isDeposit] at hd
        | resolve r2 => simp [Transaction.isDeposit] at hd
        | chargeback c2 => simp [Transaction.isDeposit] at hd
    · simp
  · intro store account c
    unfold handleChargeback
    split
    · split
      · simp
      · simp
      · rename_i t heq
        have hd := hok store c.tx t heq
        cases t with
        | deposit dp =>
          dsimp only
          split
          · simp
          · split
            · simp
            · split <;> simp
        | withdrawal w => simp [Transaction.isDeposit] at hd
        | dispute d2 => simp [Transaction.isDeposit] at hd
        | resolve r2 => simp [Transaction.isDeposit] at hd
        | chargeback c2 => simp [Transaction.isDeposit] at hd
    · simp

/-- C9 (witness): a concrete lookup hit is a deposit, and a concrete dispute
does not hit the `unreachable!` arm. -/
theorem find_transaction_only_deposits_witness :
    (Transaction.deposit ⟨1, 7, 5⟩).isDeposit = true ∧
    handleDispute [] (Account.empty 1) ⟨1, 1⟩ ≠ .panicked .nonDepositDisputed :=
  ⟨find_transaction_only_deposits.1
      [{ txMin := 7, txMax := 7, rows := [Transaction.deposit ⟨1, 7, 5⟩] }] 7
      (.deposit ⟨1, 7, 5⟩) (by decide),
   find_transaction_only_deposits.2.1 [] (Account.empty 1) ⟨1, 1⟩⟩

/-- C10: `persist_block` panics on an empty chunk (the `.expect`s on the
first/last transaction fire, modelled as `none`); on any chunk with at least
one transaction those branches are unreachable and persistence succeeds; and
the pipeline's `try_chunks(TX_BLOCK_SIZE)` only ever produces non-empty
chunks. -/
theorem persist_block_nonempty_chunks (store : TxBlockStore) :
    persistBlock store [] = none ∧
    (∀ ts : List Transaction, ts ≠ [] → (persistBlock store ts).isSome = true) ∧
    (∀ l : List Transaction, ∀ c ∈ chunksOf l, c ≠ []) := by
  refine ⟨rfl, ?_, ?_⟩
  · intro ts hne
    rw [persistBlock_eq (List.head?_eq_head hne) (List.getLast?_eq_getLast ts hne)]
    rfl
  · have key : ∀ (n : Nat) (l : List Transaction), l.length ≤ n →
        ∀ c ∈ chunksOf l, c ≠ [] := by
      intro n
      induction n with
      | zero =>
        intro l hl c hc
        have : l = [] := List.length_eq_zero.mp (Nat.le_zero.mp hl)
        subst this
        rw [chunksOf] at hc
        simp at hc
      | succ n ih =>
        intro l hl c hc
        rw [chunksOf] at hc
        split at hc
        · simp at hc
        · rename_i hE
          rcases List.mem_cons.mp hc with rfl | hc'
          · intro habs
            rcases List.take_eq_nil_iff.mp habs with h0 | h0
            · exact absurd h0 (by simp [TX_BLOCK_SIZE])
            · exact hE h0
          · refine ih (l.drop TX_BLOCK_SIZE) ?_ c hc'
            have hlen : l.length ≠ 0 := fun h0 => hE (List.length_eq_zero.mp h0)
            simp only [List.length_drop, TX_BLOCK_SIZE]
            omega
    exact fun l => key l.length l le_rfl

/-- C10 (witness). -/
theorem persist_block_nonempty_chunks_witness :
    (persistBlock [] [Transaction.deposit ⟨1, 7, 5⟩]).isSome = true ∧
    ([Transaction.deposit ⟨1, 7, 5⟩] ≠ ([] : List Transaction)) :=
  ⟨(persist_block_nonempty_chunks []).2.1 [Transaction.deposit ⟨1, 7, 5⟩]
      (by decide),
   by decide⟩

end Transact
